import Mathlib

/-!
Shallow embedding of the validator-list aggregation and selection engine
(Validators::ManagerImp of src/src/ripple/validators/impl/Manager.cpp) and the
Logic/Source layer it drives.  The Manager scheduling shell (check flag, timer,
serialized queue, worker loop, RPC surface) is translated directly from
Manager.cpp.  The Logic component (sources, validator table, fetch-one
reconciliation, scoring, Chosen-set construction) is not part of the provided
source files; its definitions below are modelled from the specification and are
marked as such in their doc comments.
-/

namespace Validators

/-- A validator record in Logic's known-validator table: identity, origin
Source references, score counters and trust flag.  Modelled from the spec:
the ValidatorRecord data model (Logic's table is not in the provided source). -/
structure ValidatorRecord where
  identity : Nat
  origins : List Nat
  participated : Nat
  wasted : Nat
  roundsObserved : Nat
  trusted : Bool
deriving DecidableEq, Repr

/-- A Source: identity, static/dynamic kind, last-known membership snapshot and
degraded flag.  Modelled from the spec: the Source data model (SourceStrings /
SourceFile / SourceURL are not in the provided source). -/
structure Source where
  id : Nat
  isStatic : Bool
  snapshot : List Nat
  degraded : Bool
deriving DecidableEq, Repr

/-- Outcome of pulling a single Source, supplied by the environment.
Modelled from the spec: `pull() -> Result<{identities}, FetchError>` with the
transient-unavailable / malformed-content error taxonomy. -/
inductive PullResult where
  | success (identities : List Nat)
  | transientFailure
  | malformed
deriving DecidableEq, Repr

/-- Logic's mutable state: static sources, the ordered dynamic-source rotation,
the round-robin cursor, the known-validator table, the Chosen set, the target
count and sampling seed.  `loaded` records whether persisted state was loaded;
`pulls` is a ghost counter incremented each time a Source is actually pulled.
Modelled from the spec: the Logic component is not in the provided source. -/
structure LogicState where
  staticSources : List Source
  sources : List Source
  cursor : Nat
  validators : List ValidatorRecord
  chosen : List Nat
  targetCount : Nat
  seed : Nat
  loaded : Bool
  pulls : Nat
deriving DecidableEq, Repr

/-- The three-way diff of a Source's old membership snapshot against a freshly
pulled one: (unchanged, newly appeared, newly removed).  Modelled from the
spec: reconciliation computes these three disjoint sets. -/
def reconcileDiff (sOld sNew : List Nat) : List Nat × List Nat × List Nat :=
  (sOld.filter (fun x => x ∈ sNew),
   sNew.filter (fun x => x ∉ sOld),
   sOld.filter (fun x => x ∉ sNew))

/-- Add a Source to a record's origin set and reactivate the record.
Modelled from the spec: newly appeared identities are created or reactivated
with this Source added to their origin set. -/
def addOrigin (v : ValidatorRecord) (sid : Nat) : ValidatorRecord :=
  { v with origins := if sid ∈ v.origins then v.origins else sid :: v.origins,
           trusted := true }

/-- Remove a Source from a record's origin set; if the origin set becomes
empty the record is marked untrusted while its score history is retained.
Modelled from the spec: the newly-removed identity rule. -/
def removeOrigin (v : ValidatorRecord) (sid : Nat) : ValidatorRecord :=
  let os := v.origins.filter (fun o => o ≠ sid)
  { v with origins := os, trusted := if os.isEmpty then false else v.trusted }

/-- A fresh record for an identity first observed from Source `sid`.
Modelled from the spec: created on first observation from any source. -/
def newRecord (id sid : Nat) : ValidatorRecord :=
  { identity := id, origins := [sid], participated := 0, wasted := 0,
    roundsObserved := 0, trusted := true }

/-- Look up the record for an identity in the known-validator table. -/
def findRecord (table : List ValidatorRecord) (id : Nat) : Option ValidatorRecord :=
  table.find? (fun v => v.identity = id)

/-- Update one existing record for a pull by Source `sid`: a newly appeared
identity gains the Source as an origin (and is reactivated), a newly removed
identity loses it, all others are untouched.  Modelled from the spec: the
per-identity reconciliation actions. -/
def pullUpdate (sid : Nat) (added removed : List Nat)
    (v : ValidatorRecord) : ValidatorRecord :=
  if v.identity ∈ added then addOrigin v sid
  else if v.identity ∈ removed then removeOrigin v sid
  else v

/-- Fresh records for the newly appeared identities with no existing record.
Modelled from the spec: creation on first observation. -/
def freshRecords (sid : Nat) (added : List Nat)
    (table : List ValidatorRecord) : List ValidatorRecord :=
  (added.filter (fun id => ¬ table.any (fun v => v.identity = id))).map
    (fun id => newRecord id sid)

/-- Apply a successful pull of the Source at `idx` returning `newIds`:
compute the three-way diff against its snapshot, update or create the touched
ValidatorRecords, and replace the Source's membership snapshot.  Modelled from
the spec: Logic's fetch-one reconciliation steps 1-4. -/
def applyPull (l : LogicState) (idx : Nat) (newIds : List Nat) : LogicState :=
  match l.sources[idx]? with
  | none => l
  | some src =>
    let added := (reconcileDiff src.snapshot newIds).2.1
    let removed := (reconcileDiff src.snapshot newIds).2.2
    { l with
        validators :=
          l.validators.map (pullUpdate src.id added removed) ++
            freshRecords src.id added l.validators,
        sources := l.sources.set idx
          { src with snapshot := newIds, degraded := false } }

/-- Flag the Source at `idx` as degraded after a malformed-content pull.
Modelled from the spec: malformed content flags the Source degraded and is
otherwise a no-op for that turn. -/
def markDegraded (l : LogicState) (idx : Nat) : LogicState :=
  match l.sources[idx]? with
  | none => l
  | some src => { l with sources := l.sources.set idx { src with degraded := true } }

/-- The embedding of `Logic::fetch_one`: advance the round-robin cursor over dynamic Sources,
pull exactly one (its outcome supplied by the environment), reconcile on
success, flag degraded on malformed content, leave state untouched on a
transient failure; return the number of Sources not yet visited in the current
rotation (0 signals a completed full pass, and resets the cursor).  Modelled
from the spec: Logic's fetch-one contract (Logic is not in the provided
source). -/
def fetch_one (l : LogicState) (pr : PullResult) : LogicState × Nat :=
  let n := l.sources.length
  if l.cursor < n then
    let l0 := match pr with
      | .success ids => applyPull l l.cursor ids
      | .transientFailure => l
      | .malformed => markDegraded l l.cursor
    let l1 := { l0 with pulls := l0.pulls + 1 }
    let remaining := n - (l.cursor + 1)
    if remaining = 0 then ({ l1 with cursor := 0 }, 0)
    else ({ l1 with cursor := l.cursor + 1 }, remaining)
  else
    ({ l with cursor := 0 }, 0)

/-- Selection weight: a monotonic function of the participation score, kept
positive so every trusted record is selectable.  Modelled from the spec: the
exact weighting formula is an implementation choice constrained to be monotone
in participation. -/
def weight (v : ValidatorRecord) : Nat :=
  v.participated + 1

/-- Sum of the selection weights of a pool. -/
def totalWeight (pool : List ValidatorRecord) : Nat :=
  (pool.map weight).sum

/-- Walk the cumulative weights of a pool and select the record whose weight
interval contains `r`; a singleton pool is always selected, so a nonempty pool
always yields a record.  Modelled from the spec: weighted pseudo-random
selection. -/
def selectByWeight : List ValidatorRecord → Nat → Option ValidatorRecord
  | [], _ => none
  | [v], _ => some v
  | v :: w :: rest, r =>
    if r < weight v then some v else selectByWeight (w :: rest) (r - weight v)

/-- Step the pseudo-random seed (linear congruential step).  Modelled from the
spec: sampling is deterministic given a fixed seed. -/
def nextSeed (s : Nat) : Nat :=
  (s * 1103515245 + 12345) % 2147483648

/-- Pick one record from the pool by weighted selection and return it together
with the pool with that record removed.  Modelled from the spec: sampling
without replacement. -/
def pickWeighted (pool : List ValidatorRecord) (s : Nat) :
    Option (ValidatorRecord × List ValidatorRecord) :=
  match selectByWeight pool (s % (totalWeight pool + 1)) with
  | none => none
  | some v => some (v, pool.erase v)

/-- Draw `k` records from the pool by weighted sampling without replacement.
Modelled from the spec: Chosen-set sampling when the trusted population
exceeds the target count. -/
def sampleWithout : Nat → Nat → List ValidatorRecord → List ValidatorRecord
  | 0, _, _ => []
  | k + 1, s, pool =>
    match pickWeighted pool s with
    | none => []
    | some (v, rest) => v :: sampleWithout k (nextSeed s) rest

/-- The embedding of `Logic::buildChosen`: filter the known-validator table to trust-worthiness
true; if that population fits within the target count the Chosen set is
exactly that population, otherwise sample exactly `targetCount` entries by
weighted sampling without replacement.  Modelled from the spec: Logic's
Chosen-set construction (Logic is not in the provided source). -/
def buildChosen (l : LogicState) : List Nat :=
  let trusted := l.validators.filter (fun v => v.trusted)
  if trusted.length ≤ l.targetCount then trusted.map (fun v => v.identity)
  else (sampleWithout l.targetCount l.seed trusted).map (fun v => v.identity)

/-- Run `buildChosen` and install the result as the current Chosen set,
advancing the seed so each rebuild uses a fresh one.  Modelled from the spec:
rebuild replaces the Chosen snapshot atomically. -/
def logicBuildChosen (l : LogicState) : LogicState :=
  { l with chosen := buildChosen l, seed := nextSeed l.seed }

/-- The embedding of `Logic::add`: enroll a dynamic Source into the rotation; a duplicate
Source identity is a benign no-op.  Modelled from the spec: Logic's source
management. -/
def logicAdd (l : LogicState) (src : Source) : LogicState :=
  if l.sources.any (fun s => s.id = src.id) then l
  else { l with sources := l.sources ++ [src] }

/-- The embedding of `Logic::addStatic`: register a static Source (fetched once, never
re-enrolled into the rotation); duplicates are a benign no-op.  Modelled from
the spec: Logic's source management. -/
def logicAddStatic (l : LogicState) (src : Source) : LogicState :=
  if l.staticSources.any (fun s => s.id = src.id) then l
  else { l with staticSources := l.staticSources ++ [src] }

/-- The embedding of `Logic::receiveValidation`: credit a received validation to the signing
validator's participation counter.  Modelled from the spec: Logic's scoring on
a received validation observation. -/
def logicReceiveValidation (l : LogicState) (id : Nat) : LogicState :=
  { l with validators := l.validators.map (fun v =>
      if v.identity = id then { v with participated := v.participated + 1 }
      else v) }

/-- The embedding of `Logic::ledgerClosed`: account a closed consensus round in every record's
rounds-observed counter.  Modelled from the spec: Logic's scoring on a
ledger-close notification. -/
def logicLedgerClosed (l : LogicState) (_ledgerHash : Nat) : LogicState :=
  { l with validators := l.validators.map (fun v =>
      { v with roundsObserved := v.roundsObserved + 1 }) }

/-- The embedding of `Logic::load`: populate the in-memory tables from the Store at startup.
Modelled from the spec: load-at-startup happens before the worker begins
normal operation. -/
def logicLoad (l : LogicState) : LogicState :=
  { l with loaded := true }

/-- A task enqueued onto the Manager's serialized ServiceQueue; one variant
per `m_queue.dispatch (bind ...)` call site in Manager.cpp. -/
inductive Task where
  | buildChosen
  | addSourceTask (src : Source)
  | addStaticSourceTask (src : Source)
  | receiveValidationTask (id : Nat)
  | ledgerClosedTask (h : Nat)
  | setCheckSources
  | signalThreadShouldExit
deriving DecidableEq, Repr

/-- The configured periodic check interval (`checkEverySeconds`); the constant
itself lives in a tuning header outside the provided source. -/
def checkEverySeconds : Nat := 60

/-- The state of `ManagerImp`: the Logic state, the `m_checkSources` flag, the
deadline timer (`none` when unarmed), the serialized FIFO queue, the thread
and Stoppable flags, and the init-outcome fields.  `passesCompleted` and
`tasksRun` are ghost counters: a completed full fetch pass, and queue tasks
processed by `run_one`. -/
structure ManagerState where
  logic : LogicState
  checkSources : Bool
  timerDeadline : Option Nat
  queue : List Task
  threadShouldExit : Bool
  stopping : Bool
  storeOpen : Bool
  fatalReported : Bool
  passesCompleted : Nat
  tasksRun : Nat
deriving DecidableEq, Repr

/-- An empty Logic state as built by the `ManagerImp` constructor, with the
configured target count and initial sampling seed. -/
def initialLogic (target seed : Nat) : LogicState :=
  { staticSources := [], sources := [], cursor := 0, validators := [],
    chosen := [], targetCount := target, seed := seed, loaded := false,
    pulls := 0 }

/-- The `ManagerImp` constructor: the check flag starts true (Manager.cpp line
129) so a full pass runs at startup; the timer starts unarmed and the queue
empty. -/
def initialState (target seed : Nat) : ManagerState :=
  { logic := initialLogic target seed, checkSources := true,
    timerDeadline := none, queue := [], threadShouldExit := false,
    stopping := false, storeOpen := false, fatalReported := false,
    passesCompleted := 0, tasksRun := 0 }

/-- Execute one dequeued task on the worker context (the body each
`bind (&Logic::..., &m_logic, ...)` closure runs at its queue turn). -/
def runTask (m : ManagerState) : Task → ManagerState
  | .buildChosen => { m with logic := logicBuildChosen m.logic }
  | .addSourceTask src => { m with logic := logicAdd m.logic src }
  | .addStaticSourceTask src => { m with logic := logicAddStatic m.logic src }
  | .receiveValidationTask id => { m with logic := logicReceiveValidation m.logic id }
  | .ledgerClosedTask h => { m with logic := logicLedgerClosed m.logic h }
  | .setCheckSources => { m with checkSources := true }
  | .signalThreadShouldExit => { m with threadShouldExit := true }

/-- The embedding of `ServiceQueue::run_one`: process exactly one queued task in FIFO order
(when one is queued). -/
def run_one (m : ManagerState) : ManagerState :=
  match m.queue with
  | [] => m
  | t :: rest => runTask { m with queue := rest, tasksRun := m.tasksRun + 1 } t

/-- The embedding of `ManagerImp::rpcPrint` (Manager.cpp lines 173-176): calls
`m_logic.rpcPrint` directly on the caller's context; nothing is enqueued.
The returned status value is derived from the Logic state inline. -/
def rpcPrint (m : ManagerState) : ManagerState × (List ValidatorRecord × List Nat) :=
  (m, (m.logic.validators, m.logic.chosen))

/-- The embedding of `ManagerImp::rpcRebuild` (Manager.cpp lines 178-184): dispatch a
`Logic::buildChosen` task onto the queue and return the acknowledgement value
`\x7b "chosen_list": "rebuilding" \x7d` immediately. -/
def rpcRebuild (m : ManagerState) : ManagerState × String :=
  ({ m with queue := m.queue ++ [Task.buildChosen] }, "rebuilding")

/-- The embedding of `ManagerImp::rpcSources` (Manager.cpp lines 186-189): calls
`m_logic.rpcSources` directly on the caller's context; nothing is enqueued. -/
def rpcSources (m : ManagerState) : ManagerState × (List Source × List Source) :=
  (m, (m.logic.staticSources, m.logic.sources))

/-- The embedding of `ManagerImp::addSource`: dispatch a `Logic::add` task. -/
def addSource (m : ManagerState) (src : Source) : ManagerState :=
  { m with queue := m.queue ++ [Task.addSourceTask src] }

/-- The embedding of `ManagerImp::addStaticSource`: dispatch a `Logic::addStatic` task. -/
def addStaticSource (m : ManagerState) (src : Source) : ManagerState :=
  { m with queue := m.queue ++ [Task.addStaticSourceTask src] }

/-- The embedding of `ManagerImp::receiveValidation`: when not stopping, dispatch a
`Logic::receiveValidation` task. -/
def receiveValidation (m : ManagerState) (id : Nat) : ManagerState :=
  if m.stopping then m
  else { m with queue := m.queue ++ [Task.receiveValidationTask id] }

/-- The embedding of `ManagerImp::ledgerClosed`: when not stopping, dispatch a
`Logic::ledgerClosed` task. -/
def ledgerClosed (m : ManagerState) (h : Nat) : ManagerState :=
  if m.stopping then m
  else { m with queue := m.queue ++ [Task.ledgerClosedTask h] }

/-- Outcome of `m_store.open` at startup, supplied by the environment. -/
inductive StoreOpenResult where
  | ok
  | openError
deriving DecidableEq, Repr

/-- The embedding of `ManagerImp::init` (Manager.cpp lines 266-287): open the Store; on error,
report the failure (fatal journal entry) and skip loading; on success, load
persisted state into Logic. -/
def managerInit (m : ManagerState) (r : StoreOpenResult) : ManagerState :=
  match r with
  | .ok => { m with storeOpen := true, logic := logicLoad m.logic }
  | .openError => { m with fatalReported := true }

/-- The embedding of `ManagerImp::onDeadlineTimer` (Manager.cpp lines 289-296): when the armed
check timer expires it is consumed and a `setCheckSources` task is dispatched
onto the queue. -/
def onDeadlineTimer (m : ManagerState) : ManagerState :=
  match m.timerDeadline with
  | none => m
  | some _ => { m with timerDeadline := none,
                       queue := m.queue ++ [Task.setCheckSources] }

/-- The embedding of `ManagerImp::checkSources` (Manager.cpp lines 303-324): when the check
flag is set, call `Logic::fetch_one` once; if it returns 0 (a full pass over
all sources completed) clear the flag, count the completed pass, and re-arm
the deadline timer with the configured interval; otherwise leave the flag set
and the timer alone. -/
def checkSourcesStep (m : ManagerState) (pr : PullResult) : ManagerState :=
  if m.checkSources then
    let fr := fetch_one m.logic pr
    if fr.2 = 0 then
      { m with logic := fr.1, checkSources := false,
               timerDeadline := some checkEverySeconds,
               passesCompleted := m.passesCompleted + 1 }
    else
      { m with logic := fr.1 }
  else m

/-- One iteration of the worker loop body of `ManagerImp::run` (Manager.cpp
lines 330-334): `checkSources()` then `m_queue.run_one()`; the Source pull
outcome for the turn is supplied by the environment. -/
def workerIteration (m : ManagerState) (pr : PullResult) : ManagerState :=
  run_one (checkSourcesStep m pr)

/-- An externally triggered event against the running Manager: a worker-loop
turn, the deadline timer firing, or one of the external entry points. -/
inductive Event where
  | workerTurn (pr : PullResult)
  | timerFired
  | rpcRebuildCall
  | rpcPrintCall
  | rpcSourcesCall
  | addSourceCall (src : Source)
  | addStaticSourceCall (src : Source)
  | receiveValidationCall (id : Nat)
  | ledgerClosedCall (h : Nat)
deriving DecidableEq, Repr

/-- Apply one event to the Manager state. -/
def step (m : ManagerState) : Event → ManagerState
  | .workerTurn pr => if m.threadShouldExit then m else workerIteration m pr
  | .timerFired => onDeadlineTimer m
  | .rpcRebuildCall => (rpcRebuild m).1
  | .rpcPrintCall => (rpcPrint m).1
  | .rpcSourcesCall => (rpcSources m).1
  | .addSourceCall src => addSource m src
  | .addStaticSourceCall src => addStaticSource m src
  | .receiveValidationCall id => receiveValidation m id
  | .ledgerClosedCall h => ledgerClosed m h

/-- Run a sequence of events from a starting state. -/
def runEvents (m : ManagerState) (es : List Event) : ManagerState :=
  es.foldl step m

/-- The embedding of `ManagerImp::run` (Manager.cpp lines 326-337): `init()` followed by the
worker loop, one `workerIteration` per supplied pull outcome, stopping once
the thread is signaled to exit. -/
def managerRun (m : ManagerState) (r : StoreOpenResult)
    (prs : List PullResult) : ManagerState :=
  (prs.map Event.workerTurn).foldl step (managerInit m r)

/-!
Helper lemmas shared by several claim theorems.
-/

/-- Executing a dequeued task never touches the pull counter. -/
theorem runTask_pulls (m : ManagerState) (t : Task) :
    (runTask m t).logic.pulls = m.logic.pulls := by
  cases t <;>
    simp [runTask, logicBuildChosen, logicAdd, logicAddStatic,
      logicReceiveValidation, logicLedgerClosed] <;>
    split <;> rfl

/-- Executing a dequeued task never touches the processed-task counter. -/
theorem runTask_tasksRun (m : ManagerState) (t : Task) :
    (runTask m t).tasksRun = m.tasksRun := by
  cases t <;> rfl

/-- Executing a dequeued task never touches the deadline timer. -/
theorem runTask_timerDeadline (m : ManagerState) (t : Task) :
    (runTask m t).timerDeadline = m.timerDeadline := by
  cases t <;> rfl

/-- Executing a dequeued task never touches the completed-pass counter. -/
theorem runTask_passesCompleted (m : ManagerState) (t : Task) :
    (runTask m t).passesCompleted = m.passesCompleted := by
  cases t <;> rfl

/-- Only the timer-dispatched `setCheckSources` task touches the check flag. -/
theorem runTask_checkSources (m : ManagerState) (t : Task)
    (ht : t ≠ Task.setCheckSources) :
    (runTask m t).checkSources = m.checkSources := by
  cases t <;> first | rfl | exact absurd rfl ht

/-- One fetch-one call increments the pull counter by at most one. -/
theorem fetch_one_pulls (l : LogicState) (pr : PullResult) :
    (fetch_one l pr).1.pulls ≤ l.pulls + 1 := by
  unfold fetch_one
  by_cases hc : l.cursor < l.sources.length
  · simp only [hc, if_true]
    have hp : (match pr with
        | .success ids => applyPull l l.cursor ids
        | .transientFailure => l
        | .malformed => markDegraded l l.cursor).pulls = l.pulls := by
      cases pr with
      | success ids =>
        simp only
        unfold applyPull
        cases l.sources[l.cursor]? <;> rfl
      | transientFailure => rfl
      | malformed =>
        simp only
        unfold markDegraded
        cases l.sources[l.cursor]? <;> rfl
    split <;> simp [hp]
  · simp [hc]

/-- The queue and the task counter are untouched by a check-sources step. -/
theorem checkSourcesStep_queue (m : ManagerState) (pr : PullResult) :
    (checkSourcesStep m pr).queue = m.queue ∧
      (checkSourcesStep m pr).tasksRun = m.tasksRun := by
  unfold checkSourcesStep
  split
  · dsimp only
    split <;> exact ⟨rfl, rfl⟩
  · exact ⟨rfl, rfl⟩

/-- The logic state after a run-one queue turn keeps its pull counter. -/
theorem run_one_pulls (m : ManagerState) :
    (run_one m).logic.pulls = m.logic.pulls := by
  unfold run_one
  cases hq : m.queue with
  | nil => rfl
  | cons t rest => exact runTask_pulls _ t

/-- A run-one queue turn processes one task exactly when the queue is
nonempty. -/
theorem run_one_tasksRun (m : ManagerState) :
    (run_one m).tasksRun = m.tasksRun + (if m.queue.isEmpty then 0 else 1) := by
  cases hq : m.queue with
  | nil => simp [run_one, hq]
  | cons t rest => simp [run_one, hq, runTask_tasksRun]

/-- With the check flag set, the logic state after a check-sources step is
exactly the fetch-one result. -/
theorem checkSourcesStep_logic_of_true (m : ManagerState) (pr : PullResult)
    (h : m.checkSources = true) :
    (checkSourcesStep m pr).logic = (fetch_one m.logic pr).1 := by
  unfold checkSourcesStep
  simp only [h, if_true]
  split <;> rfl

/-- With the check flag clear, a check-sources step is a no-op. -/
theorem checkSourcesStep_of_false (m : ManagerState) (pr : PullResult)
    (h : m.checkSources = false) :
    checkSourcesStep m pr = m := by
  unfold checkSourcesStep
  simp [h]

/-- C1: the check-flag is cleared and the periodic check timer re-armed with
the configured interval exactly when the fetch-one call of the turn returns 0
(a full pass over all sources completed); for a fetch-one call returning a
nonzero remaining count the flag stays set and the timer is not re-armed. -/
theorem c1_check_flag_cleared_iff_pass_complete (m : ManagerState)
    (pr : PullResult) (h : m.checkSources = true) :
    ((fetch_one m.logic pr).2 = 0 →
        (checkSourcesStep m pr).checkSources = false ∧
        (checkSourcesStep m pr).timerDeadline = some checkEverySeconds) ∧
    ((fetch_one m.logic pr).2 ≠ 0 →
        (checkSourcesStep m pr).checkSources = true ∧
        (checkSourcesStep m pr).timerDeadline = m.timerDeadline) := by
  unfold checkSourcesStep
  by_cases h0 : (fetch_one m.logic pr).2 = 0 <;> simp [h, h0]

/-- Witness for C1: in the constructed state (no sources enrolled yet) the
fetch-one call reports a completed pass, the flag clears and the timer is
re-armed. -/
theorem c1_witness :
    (checkSourcesStep (initialState 5 7) .transientFailure).checkSources = false ∧
    (checkSourcesStep (initialState 5 7) .transientFailure).timerDeadline =
      some checkEverySeconds :=
  (c1_check_flag_cleared_iff_pass_complete (initialState 5 7)
    .transientFailure rfl).1 (by decide)

/-- C4: no administrative or ingress operation (rebuild, add source, receive
validation, ledger closed) modifies the check-flag, whether at its enqueue
site or when its task runs; the flag is cleared only by a check-sources step
whose fetch-one call returns 0 (a completed full pass). -/
theorem c4_check_flag_frame (m : ManagerState) (src : Source) (vid lh : Nat)
    (pr : PullResult) :
    (rpcRebuild m).1.checkSources = m.checkSources ∧
    (addSource m src).checkSources = m.checkSources ∧
    (addStaticSource m src).checkSources = m.checkSources ∧
    (receiveValidation m vid).checkSources = m.checkSources ∧
    (ledgerClosed m lh).checkSources = m.checkSources ∧
    (∀ t : Task, t ≠ Task.setCheckSources →
        (runTask m t).checkSources = m.checkSources) ∧
    ((checkSourcesStep m pr).checkSources = false →
        m.checkSources = false ∨ (fetch_one m.logic pr).2 = 0) := by
  refine ⟨rfl, rfl, rfl, ?_, ?_, runTask_checkSources m, ?_⟩
  · unfold receiveValidation; split <;> rfl
  · unfold ledgerClosed; split <;> rfl
  · intro hc
    cases hcs : m.checkSources with
    | false => exact Or.inl rfl
    | true =>
      by_cases h0 : (fetch_one m.logic pr).2 = 0
      · exact Or.inr h0
      · rw [checkSourcesStep] at hc
        simp [hcs, h0] at hc

/-- Witness for C4: at a concrete state whose fetch-one call completes the
pass, the flag-clearing disjunction holds on the right. -/
theorem c4_witness :
    (initialState 1 2).checkSources = false ∨
      (fetch_one (initialState 1 2).logic .transientFailure).2 = 0 :=
  (c4_check_flag_frame (initialState 1 2)
      { id := 0, isStatic := false, snapshot := [], degraded := false }
      0 0 .transientFailure).2.2.2.2.2.2 (by decide)

/-- C5: each worker-loop iteration performs at most one Source pull, pulls
only when the check-flag is set (and then via exactly one fetch-one call), and
then processes exactly one queued task when one is queued. -/
theorem c5_one_pull_one_task_per_turn (m : ManagerState) (pr : PullResult) :
    (workerIteration m pr).logic.pulls ≤ m.logic.pulls + 1 ∧
    (m.checkSources = false →
        (workerIteration m pr).logic.pulls = m.logic.pulls) ∧
    (m.checkSources = true →
        (workerIteration m pr).logic.pulls = (fetch_one m.logic pr).1.pulls) ∧
    (workerIteration m pr).tasksRun =
      m.tasksRun + (if m.queue.isEmpty then 0 else 1) := by
  have hrun : (workerIteration m pr).logic.pulls =
      (checkSourcesStep m pr).logic.pulls := run_one_pulls (checkSourcesStep m pr)
  have htask : (workerIteration m pr).tasksRun =
      (checkSourcesStep m pr).tasksRun +
        (if (checkSourcesStep m pr).queue.isEmpty then 0 else 1) :=
    run_one_tasksRun (checkSourcesStep m pr)
  have hq := checkSourcesStep_queue m pr
  cases hcs : m.checkSources with
  | true =>
    have hl := checkSourcesStep_logic_of_true m pr hcs
    refine ⟨?_, ?_, ?_, ?_⟩
    · rw [hrun, hl]; exact fetch_one_pulls m.logic pr
    · intro hf; exact Bool.noConfusion hf
    · intro _; rw [hrun, hl]
    · rw [htask, hq.1, hq.2]
  | false =>
    have hstep := checkSourcesStep_of_false m pr hcs
    refine ⟨?_, ?_, ?_, ?_⟩
    · rw [hrun, hstep]; exact Nat.le_succ _
    · intro _; rw [hrun, hstep]
    · intro ht; exact Bool.noConfusion ht
    · rw [htask, hstep]

/-- Witness for C5: with the flag set at a concrete state, the iteration's
pull count is exactly that of the single fetch-one call. -/
theorem c5_witness :
    (workerIteration (initialState 4 9) .transientFailure).logic.pulls =
      (fetch_one (initialState 4 9).logic .transientFailure).1.pulls :=
  (c5_one_pull_one_task_per_turn (initialState 4 9) .transientFailure).2.2.1 rfl

/-- C9: the administrative rebuild command enqueues a Chosen-set rebuild task
onto the dispatcher queue and returns the "rebuilding" acknowledgement
immediately, leaving the Logic state untouched (buildChosen is not executed
inline before returning). -/
theorem c9_rebuild_enqueues_and_acknowledges (m : ManagerState) :
    (rpcRebuild m).1.queue = m.queue ++ [Task.buildChosen] ∧
    (rpcRebuild m).1.logic = m.logic ∧
    (rpcRebuild m).2 = "rebuilding" :=
  ⟨rfl, rfl, rfl⟩

/-- A concrete Manager state with a nonempty known-validator table and Chosen
set, used to exercise the administrative query paths. -/
def exampleManager : ManagerState :=
  { initialState 3 1 with
      logic := { initialLogic 3 1 with
        validators := [{ identity := 42, origins := [1], participated := 3,
                         wasted := 0, roundsObserved := 5, trusted := true }],
        chosen := [42] } }

/-- Counterexample to C2: the administrative queries print and sources do not
enqueue anything onto the dispatcher queue — at this concrete state they leave
the Manager state (queue included) unchanged and return values computed from
the Logic state inline on the caller's context. -/
theorem c2_counterexample :
    (rpcPrint exampleManager).1.queue = exampleManager.queue ∧
    (rpcSources exampleManager).1.queue = exampleManager.queue ∧
    (rpcPrint exampleManager).1 = exampleManager ∧
    (rpcPrint exampleManager).2 =
      (exampleManager.logic.validators, exampleManager.logic.chosen) ∧
    (rpcSources exampleManager).2 =
      (exampleManager.logic.staticSources, exampleManager.logic.sources) :=
  ⟨rfl, rfl, rfl, rfl, rfl⟩

/-- C2 (amended): rebuild, add-source, add-static-source, receive-validation
and ledger-closed are executed by enqueueing a task onto the serialized
dispatcher queue, leaving the Logic state untouched on the caller's context;
the administrative queries print and sources instead execute against the Logic
state inline on the caller's context and enqueue nothing. -/
theorem c2_enqueue_vs_inline_operations (m : ManagerState) (src : Source)
    (vid lh : Nat) :
    ((rpcRebuild m).1.queue = m.queue ++ [Task.buildChosen] ∧
       (rpcRebuild m).1.logic = m.logic) ∧
    ((addSource m src).queue = m.queue ++ [Task.addSourceTask src] ∧
       (addSource m src).logic = m.logic) ∧
    ((addStaticSource m src).queue = m.queue ++ [Task.addStaticSourceTask src] ∧
       (addStaticSource m src).logic = m.logic) ∧
    (m.stopping = false →
       (receiveValidation m vid).queue =
           m.queue ++ [Task.receiveValidationTask vid] ∧
         (receiveValidation m vid).logic = m.logic) ∧
    (m.stopping = false →
       (ledgerClosed m lh).queue = m.queue ++ [Task.ledgerClosedTask lh] ∧
         (ledgerClosed m lh).logic = m.logic) ∧
    ((rpcPrint m).1 = m ∧
       (rpcPrint m).2 = (m.logic.validators, m.logic.chosen)) ∧
    ((rpcSources m).1 = m ∧
       (rpcSources m).2 = (m.logic.staticSources, m.logic.sources)) := by
  refine ⟨⟨rfl, rfl⟩, ⟨rfl, rfl⟩, ⟨rfl, rfl⟩, ?_, ?_, ⟨rfl, rfl⟩, ⟨rfl, rfl⟩⟩
  · intro hs; unfold receiveValidation; rw [hs]; exact ⟨rfl, rfl⟩
  · intro hs; unfold ledgerClosed; rw [hs]; exact ⟨rfl, rfl⟩

/-- Witness for C2 (amended): at a concrete non-stopping state,
receive-validation enqueues its task and leaves Logic untouched. -/
theorem c2_witness :
    (receiveValidation exampleManager 42).queue =
        exampleManager.queue ++ [Task.receiveValidationTask 42] ∧
      (receiveValidation exampleManager 42).logic = exampleManager.logic :=
  (c2_enqueue_vs_inline_operations exampleManager
      { id := 0, isStatic := false, snapshot := [], degraded := false }
      42 0).2.2.2.1 rfl

/-- Counterexample to C3: with the Store failing to open at startup, the run
loop still starts and drains the queue — at this concrete state a queued
rebuild task is processed during the first worker iteration (the ghost task
counter reaches 1), even though the failure was reported. -/
theorem c3_counterexample :
    (managerRun { initialState 2 1 with queue := [Task.buildChosen] }
        .openError [.transientFailure]).tasksRun = 1 ∧
    (managerRun { initialState 2 1 with queue := [Task.buildChosen] }
        .openError [.transientFailure]).fatalReported = true ∧
    (managerRun { initialState 2 1 with queue := [Task.buildChosen] }
        .openError [.transientFailure]).queue = [] := by
  refine ⟨?_, ?_, ?_⟩ <;> rfl

/-- C3 (amended): if the Store fails to open at startup, the failure is
reported and the persisted-state load is skipped, but the worker loop still
begins and drains queued operations: with a nonempty queue and the thread not
signaled to exit, the first worker iteration after the failed init processes a
queued task. -/
theorem c3_failed_open_reports_but_loop_drains (m : ManagerState)
    (pr : PullResult) :
    (managerInit m .openError).fatalReported = true ∧
    (managerInit m .openError).logic = m.logic ∧
    (managerInit m .openError).storeOpen = m.storeOpen ∧
    (m.threadShouldExit = false → m.queue ≠ [] →
       (managerRun m .openError [pr]).tasksRun = m.tasksRun + 1) := by
  refine ⟨rfl, rfl, rfl, ?_⟩
  intro hexit hne
  have hinit : managerInit m .openError =
      { m with fatalReported := true } := rfl
  have hrun : managerRun m .openError [pr] =
      workerIteration { m with fatalReported := true } pr := by
    unfold managerRun
    rw [hinit]
    simp [runEvents, step, hexit]
  rw [hrun]
  have h1 : (workerIteration { m with fatalReported := true } pr).tasksRun =
      (checkSourcesStep { m with fatalReported := true } pr).tasksRun +
        (if (checkSourcesStep { m with fatalReported := true } pr).queue.isEmpty
          then 0 else 1) :=
    run_one_tasksRun _
  have h2 := checkSourcesStep_queue { m with fatalReported := true } pr
  rw [h1, h2.1, h2.2]
  have : (m.queue.isEmpty) = false := by
    cases hq : m.queue with
    | nil => exact absurd hq hne
    | cons t rest => rfl
  simp [this]

/-- Witness for C3 (amended): at a concrete state with a queued task, the
first post-init worker iteration processes it. -/
theorem c3_witness :
    (managerRun { initialState 2 1 with queue := [Task.buildChosen] }
        .openError [.malformed]).tasksRun =
      { initialState 2 1 with queue := [Task.buildChosen] }.tasksRun + 1 :=
  (c3_failed_open_reports_but_loop_drains
      { initialState 2 1 with queue := [Task.buildChosen] }
      .malformed).2.2.2 rfl (by simp)

/-- The timer invariant: the deadline timer is armed only once at least one
full fetch pass has completed. -/
def TimerInv (m : ManagerState) : Prop :=
  m.timerDeadline ≠ none → 1 ≤ m.passesCompleted

/-- A check-sources step preserves the timer invariant: it arms the timer only
in the branch that records a completed pass. -/
theorem checkSourcesStep_timerInv (m : ManagerState) (pr : PullResult)
    (h : TimerInv m) : TimerInv (checkSourcesStep m pr) := by
  unfold checkSourcesStep
  split
  · dsimp only
    split
    · intro _; exact Nat.le_add_left 1 m.passesCompleted
    · exact h
  · exact h

/-- A run-one queue turn preserves the timer invariant: no task arms the timer
or clears the pass counter. -/
theorem run_one_timerInv (m : ManagerState) (h : TimerInv m) :
    TimerInv (run_one m) := by
  unfold run_one
  cases hq : m.queue with
  | nil => exact h
  | cons t rest =>
    intro ha
    rw [runTask_timerDeadline] at ha
    rw [runTask_passesCompleted]
    exact h ha

/-- Every Manager event preserves the timer invariant. -/
theorem step_timerInv (m : ManagerState) (e : Event) (h : TimerInv m) :
    TimerInv (step m e) := by
  cases e with
  | workerTurn pr =>
    show TimerInv (if m.threadShouldExit then m else workerIteration m pr)
    split
    · exact h
    · exact run_one_timerInv _ (checkSourcesStep_timerInv m pr h)
  | timerFired =>
    show TimerInv (onDeadlineTimer m)
    unfold onDeadlineTimer
    split
    · exact h
    · intro ha; exact absurd rfl ha
  | rpcRebuildCall => intro ha; exact h ha
  | rpcPrintCall => intro ha; exact h ha
  | rpcSourcesCall => intro ha; exact h ha
  | addSourceCall src => intro ha; exact h ha
  | addStaticSourceCall src => intro ha; exact h ha
  | receiveValidationCall vid =>
    show TimerInv (receiveValidation m vid)
    unfold receiveValidation
    split
    · exact h
    · intro ha; exact h ha
  | ledgerClosedCall lh =>
    show TimerInv (ledgerClosed m lh)
    unfold ledgerClosed
    split
    · exact h
    · intro ha; exact h ha

/-- Any event sequence preserves the timer invariant. -/
theorem runEvents_timerInv (es : List Event) (m : ManagerState)
    (h : TimerInv m) : TimerInv (runEvents m es) := by
  induction es generalizing m with
  | nil => exact h
  | cons e es ih => exact ih (step m e) (step_timerInv m e h)

/-- C10: the check-flag is initialized to true at construction while the timer
starts unarmed, so the startup fetch pass runs before the periodic check timer
has ever fired; along every event sequence from the constructed state, the
timer is armed only after at least one complete fetch pass (a fetch-one call
returning 0). -/
theorem c10_initial_pass_before_timer (target seed : Nat) (es : List Event) :
    (initialState target seed).checkSources = true ∧
    (initialState target seed).timerDeadline = none ∧
    ((runEvents (initialState target seed) es).timerDeadline ≠ none →
       1 ≤ (runEvents (initialState target seed) es).passesCompleted) :=
  ⟨rfl, rfl, runEvents_timerInv es (initialState target seed)
    (fun ha => absurd rfl ha)⟩

/-- Witness for C10: after one worker turn from the constructed state the
timer is armed and exactly one completed pass justifies it. -/
theorem c10_witness :
    1 ≤ (runEvents (initialState 2 1)
          [Event.workerTurn .transientFailure]).passesCompleted :=
  (c10_initial_pass_before_timer 2 1 [Event.workerTurn .transientFailure]).2.2
    (by decide)

/-- Marking a Source degraded leaves the known-validator table alone. -/
theorem markDegraded_validators (l : LogicState) (idx : Nat) :
    (markDegraded l idx).validators = l.validators := by
  unfold markDegraded
  cases l.sources[idx]? <;> rfl

/-- Marking a Source degraded leaves the cursor alone. -/
theorem markDegraded_cursor (l : LogicState) (idx : Nat) :
    (markDegraded l idx).cursor = l.cursor := by
  unfold markDegraded
  cases l.sources[idx]? <;> rfl

/-- Marking a Source degraded preserves every membership snapshot. -/
theorem markDegraded_snapshot (l : LogicState) (idx i : Nat) :
    ((markDegraded l idx).sources[i]?).map Source.snapshot =
      (l.sources[i]?).map Source.snapshot := by
  unfold markDegraded
  cases hs : l.sources[idx]? with
  | none => rfl
  | some src =>
    dsimp only
    rw [List.getElem?_set]
    by_cases hij : idx = i
    · subst hij
      obtain ⟨hlt, hg⟩ := List.getElem?_eq_some.mp hs
      simp [hlt, hs]
    · simp [hij]

/-- Any fetch-one call advances the rotation cursor past the pulled Source,
wrapping to 0 at the end of the rotation. -/
theorem fetch_one_cursor (l : LogicState) (pr : PullResult)
    (hc : l.cursor < l.sources.length) :
    (fetch_one l pr).1.cursor = (l.cursor + 1) % l.sources.length := by
  unfold fetch_one
  simp only [hc, if_true]
  by_cases h0 : l.sources.length - (l.cursor + 1) = 0
  · have he : l.cursor + 1 = l.sources.length := by omega
    rw [if_pos h0]
    show 0 = (l.cursor + 1) % l.sources.length
    rw [he, Nat.mod_self]
  · rw [if_neg h0]
    show l.cursor + 1 = (l.cursor + 1) % l.sources.length
    rw [Nat.mod_eq_of_lt (by omega)]

/-- C8: a failed pull (transient-unavailable or malformed content) leaves
every ValidatorRecord and every Source's last-known membership snapshot
unchanged, while the rotation cursor still advances past the failing
Source. -/
theorem c8_failed_pull_preserves_state (l : LogicState) (pr : PullResult)
    (hf : pr = PullResult.transientFailure ∨ pr = PullResult.malformed) :
    (fetch_one l pr).1.validators = l.validators ∧
    (∀ i : Nat, ((fetch_one l pr).1.sources[i]?).map Source.snapshot =
        (l.sources[i]?).map Source.snapshot) ∧
    (l.cursor < l.sources.length →
        (fetch_one l pr).1.cursor = (l.cursor + 1) % l.sources.length) := by
  have hval : (fetch_one l pr).1.validators = l.validators := by
    rcases hf with hf | hf <;> subst hf <;>
      by_cases hc : l.cursor < l.sources.length <;>
      by_cases h0 : l.sources.length - (l.cursor + 1) = 0 <;>
      simp [fetch_one, hc, h0, markDegraded_validators]
  have hsnap : ∀ i : Nat, ((fetch_one l pr).1.sources[i]?).map Source.snapshot =
      (l.sources[i]?).map Source.snapshot := by
    intro i
    rcases hf with hf | hf <;> subst hf <;>
      by_cases hc : l.cursor < l.sources.length <;>
      by_cases h0 : l.sources.length - (l.cursor + 1) = 0 <;>
      simp [fetch_one, hc, h0, markDegraded_snapshot]
  exact ⟨hval, hsnap, fun hc => fetch_one_cursor l pr hc⟩

/-- Witness for C8: at a concrete one-source state, a transient failure leaves
the table and snapshot untouched and advances the cursor. -/
theorem c8_witness :
    (fetch_one { initialLogic 3 1 with
        sources := [{ id := 7, isStatic := false, snapshot := [10], degraded := false }] }
      .transientFailure).1.cursor = (0 + 1) % 1 :=
  (c8_failed_pull_preserves_state
      { initialLogic 3 1 with
          sources := [{ id := 7, isStatic := false, snapshot := [10], degraded := false }] }
      .transientFailure (Or.inl rfl)).2.2 (by decide)

/-- A weighted selection always returns an element of the pool. -/
theorem selectByWeight_mem (pool : List ValidatorRecord) (r : Nat)
    (v : ValidatorRecord) (h : selectByWeight pool r = some v) : v ∈ pool := by
  induction pool generalizing r with
  | nil => exact absurd h (by simp [selectByWeight])
  | cons a t ih =>
    cases t with
    | nil =>
      simp only [selectByWeight, Option.some.injEq] at h
      subst h
      exact List.mem_cons_self a []
    | cons b t2 =>
      by_cases hr : r < weight a
      · rw [selectByWeight, if_pos hr] at h
        injection h with h
        subst h
        exact List.mem_cons_self a _
      · rw [selectByWeight, if_neg hr] at h
        exact List.mem_cons_of_mem a (ih _ h)

/-- A weighted selection over a nonempty pool always yields a record. -/
theorem selectByWeight_isSome (pool : List ValidatorRecord) (r : Nat)
    (h : pool ≠ []) : ∃ v, selectByWeight pool r = some v := by
  induction pool generalizing r with
  | nil => exact absurd rfl h
  | cons a t ih =>
    cases t with
    | nil => exact ⟨a, rfl⟩
    | cons b t2 =>
      by_cases hr : r < weight a
      · exact ⟨a, by rw [selectByWeight, if_pos hr]⟩
      · obtain ⟨v, hv⟩ := ih (r - weight a) (by simp)
        exact ⟨v, by rw [selectByWeight, if_neg hr]; exact hv⟩

/-- Destructing a successful weighted pick: the record is drawn from the pool
and the remainder is the pool with that record removed. -/
theorem pickWeighted_some (pool : List ValidatorRecord) (s : Nat)
    (v : ValidatorRecord) (rest : List ValidatorRecord)
    (h : pickWeighted pool s = some (v, rest)) :
    v ∈ pool ∧ rest = pool.erase v := by
  unfold pickWeighted at h
  cases hs : selectByWeight pool (s % (totalWeight pool + 1)) with
  | none => rw [hs] at h; cases h
  | some w =>
    rw [hs] at h
    simp only [Option.some.injEq, Prod.mk.injEq] at h
    obtain ⟨h1, h2⟩ := h
    subst h1
    exact ⟨selectByWeight_mem pool _ w hs, h2.symm⟩

/-- A weighted pick from a nonempty pool succeeds. -/
theorem pickWeighted_of_ne (pool : List ValidatorRecord) (s : Nat)
    (h : pool ≠ []) :
    ∃ v, pickWeighted pool s = some (v, pool.erase v) ∧ v ∈ pool := by
  obtain ⟨v, hv⟩ := selectByWeight_isSome pool (s % (totalWeight pool + 1)) h
  exact ⟨v, by simp [pickWeighted, hv], selectByWeight_mem _ _ _ hv⟩

/-- Sampling without replacement yields exactly the requested count whenever
the pool is large enough. -/
theorem sampleWithout_length (k s : Nat) (pool : List ValidatorRecord)
    (h : k ≤ pool.length) : (sampleWithout k s pool).length = k := by
  induction k generalizing s pool with
  | zero => rfl
  | succ k ih =>
    have hne : pool ≠ [] := by
      intro he
      subst he
      simp at h
    obtain ⟨v, hv, hmem⟩ := pickWeighted_of_ne pool s hne
    rw [sampleWithout, hv]
    simp only [List.length_cons]
    have hk : k ≤ (pool.erase v).length := by
      rw [List.length_erase_of_mem hmem]
      omega
    rw [ih (nextSeed s) _ hk]

/-- Every sampled record is drawn from the pool. -/
theorem sampleWithout_subset (k s : Nat) (pool : List ValidatorRecord)
    (x : ValidatorRecord) (hx : x ∈ sampleWithout k s pool) : x ∈ pool := by
  induction k generalizing s pool with
  | zero => simp [sampleWithout] at hx
  | succ k ih =>
    rw [sampleWithout] at hx
    cases hp : pickWeighted pool s with
    | none => rw [hp] at hx; simp at hx
    | some pair =>
      obtain ⟨v, rest⟩ := pair
      obtain ⟨hv, hrest⟩ := pickWeighted_some pool s v rest hp
      rw [hp] at hx
      rcases List.mem_cons.mp hx with hxv | hxs
      · subst hxv; exact hv
      · subst hrest
        exact List.mem_of_mem_erase (ih (nextSeed s) (pool.erase v) hxs)

/-- Sampling without replacement never repeats an identity when the pool's
identities are distinct. -/
theorem sampleWithout_nodup_id (k s : Nat) (pool : List ValidatorRecord)
    (hnd : (pool.map (fun v => v.identity)).Nodup) :
    ((sampleWithout k s pool).map (fun v => v.identity)).Nodup := by
  induction k generalizing s pool with
  | zero => simp [sampleWithout]
  | succ k ih =>
    rw [sampleWithout]
    cases hp : pickWeighted pool s with
    | none => simp
    | some pair =>
      obtain ⟨v, rest⟩ := pair
      obtain ⟨hv, hrest⟩ := pickWeighted_some pool s v rest hp
      subst hrest
      simp only [List.map_cons, List.nodup_cons]
      refine ⟨?_, ih (nextSeed s) (pool.erase v)
        (List.Nodup.sublist (List.Sublist.map _ (List.erase_sublist v pool)) hnd)⟩
      intro hmemid
      obtain ⟨w, hw, hwid⟩ := List.mem_map.mp hmemid
      have hw2 : w ∈ pool.erase v := sampleWithout_subset k _ _ w hw
      have hw3 : w ∈ pool := List.mem_of_mem_erase hw2
      have hwv : w = v := List.inj_on_of_nodup_map hnd hw3 hv hwid
      subst hwv
      have hpnd : pool.Nodup := List.Nodup.of_map _ hnd
      rw [List.Nodup.mem_erase_iff hpnd] at hw2
      exact hw2.1 rfl

/-- C6: for a known-validator table with distinct identities, buildChosen
returns exactly min(P, T) entries where P is the trusted population size and T
the configured target count; every entry is the identity of a trust-worthy
record, no identity repeats, and when P ≤ T the Chosen set is exactly the
trusted population. -/
theorem c6_buildChosen_size_trust_nodup (l : LogicState)
    (hnd : (l.validators.map (fun v => v.identity)).Nodup) :
    (buildChosen l).length =
      min (l.validators.filter (fun v => v.trusted)).length l.targetCount ∧
    (∀ id ∈ buildChosen l,
        ∃ v, v ∈ l.validators ∧ v.identity = id ∧ v.trusted = true) ∧
    (buildChosen l).Nodup ∧
    ((l.validators.filter (fun v => v.trusted)).length ≤ l.targetCount →
        buildChosen l =
          (l.validators.filter (fun v => v.trusted)).map
            (fun v => v.identity)) := by
  have htnd : ((l.validators.filter (fun v => v.trusted)).map
      (fun v => v.identity)).Nodup :=
    List.Nodup.sublist (List.Sublist.map _ (List.filter_sublist _)) hnd
  by_cases hle : (l.validators.filter (fun v => v.trusted)).length ≤ l.targetCount
  · have hb : buildChosen l =
        (l.validators.filter (fun v => v.trusted)).map (fun v => v.identity) := by
      simp only [buildChosen]
      rw [if_pos hle]
    refine ⟨?_, ?_, ?_, fun _ => hb⟩
    · rw [hb, List.length_map, Nat.min_eq_left hle]
    · intro id hid
      rw [hb] at hid
      obtain ⟨v, hv, hvid⟩ := List.mem_map.mp hid
      have hvf := List.mem_filter.mp hv
      exact ⟨v, hvf.1, hvid, hvf.2⟩
    · rw [hb]; exact htnd
  · have hb : buildChosen l =
        (sampleWithout l.targetCount l.seed
          (l.validators.filter (fun v => v.trusted))).map (fun v => v.identity) := by
      simp only [buildChosen]
      rw [if_neg hle]
    have hTle : l.targetCount ≤
        (l.validators.filter (fun v => v.trusted)).length :=
      Nat.le_of_not_le hle
    refine ⟨?_, ?_, ?_, fun hcon => absurd hcon hle⟩
    · rw [hb, List.length_map, sampleWithout_length _ _ _ hTle,
        Nat.min_eq_right hTle]
    · intro id hid
      rw [hb] at hid
      obtain ⟨v, hv, hvid⟩ := List.mem_map.mp hid
      have hvt := sampleWithout_subset _ _ _ v hv
      have hvf := List.mem_filter.mp hvt
      exact ⟨v, hvf.1, hvid, hvf.2⟩
    · rw [hb]
      exact sampleWithout_nodup_id _ _ _ htnd

/-- A concrete Logic state with two trusted records and room in the target
count, for exercising buildChosen. -/
def c6Example : LogicState :=
  { initialLogic 5 1 with
      validators :=
        [{ identity := 10, origins := [1], participated := 2, wasted := 0,
           roundsObserved := 3, trusted := true },
         { identity := 11, origins := [1], participated := 1, wasted := 1,
           roundsObserved := 3, trusted := true }] }

/-- Witness for C6: a concrete two-record trusted table within the target
count is returned exactly. -/
theorem c6_witness :
    buildChosen c6Example =
      (c6Example.validators.filter (fun v => v.trusted)).map
        (fun v => v.identity) :=
  (c6_buildChosen_size_trust_nodup c6Example (by decide)).2.2.2 (by decide)

/-- A pull update never changes a record's identity. -/
theorem pullUpdate_identity (sid : Nat) (added removed : List Nat)
    (v : ValidatorRecord) :
    (pullUpdate sid added removed v).identity = v.identity := by
  unfold pullUpdate
  split
  · rfl
  · split <;> rfl

/-- Adding an origin puts the Source in the origin set and reactivates the
record. -/
theorem addOrigin_spec (v : ValidatorRecord) (sid : Nat) :
    sid ∈ (addOrigin v sid).origins ∧ (addOrigin v sid).trusted = true := by
  unfold addOrigin
  by_cases h : sid ∈ v.origins
  · simp [h]
  · simp [h]

/-- Removing an origin removes the Source from the origin set, keeps the score
history, and untrusts the record when no origins remain. -/
theorem removeOrigin_spec (v : ValidatorRecord) (sid : Nat) :
    sid ∉ (removeOrigin v sid).origins ∧
    (removeOrigin v sid).participated = v.participated ∧
    (removeOrigin v sid).wasted = v.wasted ∧
    (removeOrigin v sid).roundsObserved = v.roundsObserved ∧
    (removeOrigin v sid).identity = v.identity ∧
    ((removeOrigin v sid).origins = [] → (removeOrigin v sid).trusted = false) := by
  unfold removeOrigin
  refine ⟨by simp, rfl, rfl, rfl, rfl, ?_⟩
  intro h
  dsimp only at h ⊢
  rw [h]
  rfl

/-- A record found by identity has that identity. -/
theorem findRecord_some_identity (t : List ValidatorRecord) (id : Nat)
    (r : ValidatorRecord) (h : findRecord t id = some r) : r.identity = id := by
  have hp := List.find?_some h
  simpa using hp

/-- Looking up an identity through a map by an identity-preserving function is
the mapped lookup. -/
theorem findRecord_map (f : ValidatorRecord → ValidatorRecord)
    (hf : ∀ v, (f v).identity = v.identity) (t : List ValidatorRecord)
    (id : Nat) : findRecord (t.map f) id = (findRecord t id).map f := by
  induction t with
  | nil => rfl
  | cons v t ih =>
    unfold findRecord at ih ⊢
    by_cases hv : v.identity = id
    · rw [List.map_cons, List.find?_cons_of_pos _ (by simp [hf, hv]),
        List.find?_cons_of_pos _ (by simp [hv])]
      rfl
    · rw [List.map_cons, List.find?_cons_of_neg _ (by simp [hf, hv]),
        List.find?_cons_of_neg _ (by simp [hv])]
      exact ih

/-- Looking up an identity among freshly created records finds the fresh
record for it. -/
theorem findRecord_freshRecords (sid : Nat) (added : List Nat)
    (table : List ValidatorRecord) (id : Nat)
    (hid : id ∈ added.filter (fun i => ¬ table.any (fun v => v.identity = i))) :
    findRecord (freshRecords sid added table) id = some (newRecord id sid) := by
  unfold freshRecords findRecord
  generalize added.filter (fun i => ¬ table.any (fun v => v.identity = i)) = ids at hid
  induction ids with
  | nil => cases hid
  | cons a t ih =>
    rcases List.mem_cons.mp hid with h | h
    · subst h
      rw [List.map_cons, List.find?_cons_of_pos _ (by simp [newRecord])]
    · by_cases ha : a = id
      · subst ha
        rw [List.map_cons, List.find?_cons_of_pos _ (by simp [newRecord])]
      · rw [List.map_cons, List.find?_cons_of_neg _ (by simp [newRecord, ha])]
        exact ih h

/-- The validator table after a successful pull of the Source at `idx`. -/
theorem applyPull_validators (l : LogicState) (idx : Nat) (src : Source)
    (newIds : List Nat) (hsrc : l.sources[idx]? = some src) :
    (applyPull l idx newIds).validators =
      l.validators.map (pullUpdate src.id (reconcileDiff src.snapshot newIds).2.1
          (reconcileDiff src.snapshot newIds).2.2) ++
        freshRecords src.id (reconcileDiff src.snapshot newIds).2.1
          l.validators := by
  unfold applyPull
  rw [hsrc]

/-- The Source list after a successful pull of the Source at `idx`. -/
theorem applyPull_sources (l : LogicState) (idx : Nat) (src : Source)
    (newIds : List Nat) (hsrc : l.sources[idx]? = some src) :
    (applyPull l idx newIds).sources =
      l.sources.set idx { src with snapshot := newIds, degraded := false } := by
  unfold applyPull
  rw [hsrc]

/-- Record lookup distributes over list append, preferring the left table. -/
theorem findRecord_append (t1 t2 : List ValidatorRecord) (id : Nat) :
    findRecord (t1 ++ t2) id = (findRecord t1 id).or (findRecord t2 id) := by
  unfold findRecord
  exact List.find?_append

/-- C7: for the Source at `idx` with previous membership snapshot and a
successful pull returning `newIds`, reconciliation computes the three disjoint
diff sets (unchanged, newly appeared, newly removed); every newly appeared
identity ends with a record — created or reactivated — carrying this Source as
an origin and trusted; every newly removed identity's record loses this Source
from its origin set while keeping its score history, and is untrusted when its
origin set empties; and the Source's snapshot is replaced by the pulled
membership. -/
theorem c7_reconciliation_diff_and_updates (l : LogicState) (idx : Nat)
    (src : Source) (newIds : List Nat) (hsrc : l.sources[idx]? = some src) :
    (∀ x : Nat, x ∈ (reconcileDiff src.snapshot newIds).1 ↔
        x ∈ src.snapshot ∧ x ∈ newIds) ∧
    (∀ x : Nat, x ∈ (reconcileDiff src.snapshot newIds).2.1 ↔
        x ∈ newIds ∧ x ∉ src.snapshot) ∧
    (∀ x : Nat, x ∈ (reconcileDiff src.snapshot newIds).2.2 ↔
        x ∈ src.snapshot ∧ x ∉ newIds) ∧
    (∀ id : Nat, id ∈ newIds → id ∉ src.snapshot →
        ∃ r, findRecord (applyPull l idx newIds).validators id = some r ∧
          src.id ∈ r.origins ∧ r.trusted = true) ∧
    (∀ id : Nat, ∀ r : ValidatorRecord, id ∈ src.snapshot → id ∉ newIds →
        findRecord l.validators id = some r →
        findRecord (applyPull l idx newIds).validators id =
            some (removeOrigin r src.id) ∧
          src.id ∉ (removeOrigin r src.id).origins ∧
          (removeOrigin r src.id).participated = r.participated ∧
          (removeOrigin r src.id).wasted = r.wasted ∧
          (removeOrigin r src.id).roundsObserved = r.roundsObserved ∧
          ((removeOrigin r src.id).origins = [] →
            (removeOrigin r src.id).trusted = false)) ∧
    (applyPull l idx newIds).sources[idx]? =
      some { src with snapshot := newIds, degraded := false } := by
  have hf : ∀ v : ValidatorRecord,
      (pullUpdate src.id (reconcileDiff src.snapshot newIds).2.1
        (reconcileDiff src.snapshot newIds).2.2 v).identity = v.identity :=
    fun v => pullUpdate_identity _ _ _ v
  refine ⟨?_, ?_, ?_, ?_, ?_, ?_⟩
  · intro x; simp [reconcileDiff]
  · intro x; simp [reconcileDiff]
  · intro x; simp [reconcileDiff]
  · intro id hnew hold
    have hadd : id ∈ (reconcileDiff src.snapshot newIds).2.1 := by
      simp [reconcileDiff, hnew, hold]
    rw [applyPull_validators l idx src newIds hsrc, findRecord_append,
      findRecord_map _ hf]
    cases hfind : findRecord l.validators id with
    | some r =>
      have hid : r.identity = id := findRecord_some_identity _ _ _ hfind
      have hpu : pullUpdate src.id (reconcileDiff src.snapshot newIds).2.1
          (reconcileDiff src.snapshot newIds).2.2 r = addOrigin r src.id := by
        unfold pullUpdate
        rw [hid, if_pos hadd]
      refine ⟨addOrigin r src.id, ?_, (addOrigin_spec r src.id).1,
        (addOrigin_spec r src.id).2⟩
      simp only [Option.map_some']
      rw [hpu]
      rfl
    | none =>
      have hany : l.validators.any (fun v => v.identity = id) = false := by
        rw [List.any_eq_false]
        intro x hx
        exact List.find?_eq_none.mp hfind x hx
      have hmemf : id ∈ (reconcileDiff src.snapshot newIds).2.1.filter
          (fun i => ¬ l.validators.any (fun v => v.identity = i)) := by
        rw [List.mem_filter]
        exact ⟨hadd, by simp [hany]⟩
      simp only [Option.map_none', Option.none_or]
      rw [findRecord_freshRecords src.id _ l.validators id hmemf]
      exact ⟨newRecord id src.id, rfl, by simp [newRecord], rfl⟩
  · intro id r hold hnew hfind
    have hrem : id ∈ (reconcileDiff src.snapshot newIds).2.2 := by
      simp [reconcileDiff, hold, hnew]
    have hnadd : id ∉ (reconcileDiff src.snapshot newIds).2.1 := by
      simp [reconcileDiff, hnew]
    have hid : r.identity = id := findRecord_some_identity _ _ _ hfind
    have hpu : pullUpdate src.id (reconcileDiff src.snapshot newIds).2.1
        (reconcileDiff src.snapshot newIds).2.2 r = removeOrigin r src.id := by
      unfold pullUpdate
      rw [hid, if_neg hnadd, if_pos hrem]
    obtain ⟨h1, h2, h3, h4, h5, h6⟩ := removeOrigin_spec r src.id
    refine ⟨?_, h1, h2, h3, h4, h6⟩
    rw [applyPull_validators l idx src newIds hsrc, findRecord_append,
      findRecord_map _ hf, hfind]
    simp only [Option.map_some']
    rw [hpu]
    rfl
  · rw [applyPull_sources l idx src newIds hsrc]
    have hlt : idx < l.sources.length := by
      obtain ⟨h, _⟩ := List.getElem?_eq_some.mp hsrc
      exact h
    rw [List.getElem?_set]
    simp [hlt]

/-- A concrete Logic state realizing the spec's diff example: one Source whose
previous membership is the identities 10, 11, 12, each with a record. -/
def c7Example : LogicState :=
  { initialLogic 5 1 with
      sources := [{ id := 1, isStatic := false, snapshot := [10, 11, 12],
                    degraded := false }],
      validators :=
        [{ identity := 10, origins := [1], participated := 0, wasted := 0,
           roundsObserved := 0, trusted := true },
         { identity := 11, origins := [1], participated := 0, wasted := 0,
           roundsObserved := 0, trusted := true },
         { identity := 12, origins := [1], participated := 0, wasted := 0,
           roundsObserved := 0, trusted := true }] }

/-- Witness for C7: pulling the membership 11, 12, 13 creates a record for the
newly appeared identity 13 with the Source as origin. -/
theorem c7_witness :
    ∃ r, findRecord (applyPull c7Example 0 [11, 12, 13]).validators 13 =
        some r ∧ 1 ∈ r.origins ∧ r.trusted = true :=
  (c7_reconciliation_diff_and_updates c7Example 0
      { id := 1, isStatic := false, snapshot := [10, 11, 12], degraded := false }
      [11, 12, 13] rfl).2.2.2.1 13 (by decide) (by decide)

end Validators
